import Mathlib

/-!
Verification of the litemq partitioned pub/sub core against its interface
contract (`interface.go`). The repository ships the boundary interfaces
(`Publisher`, `Subscriber`, `Partitioner`, `Partition`, `PubSub`) together
with the data types `Message`, `AckMessage`, `DeliveryGuarantee` and
`SubscriptionOptions`; the behavioural components (Ordering Sequencer,
Ack Tracker, Dedup Ledger, partition lifecycle, partition registry) are
described by the design document and are modelled here from that
description.
-/

namespace LiteMQ

/-- Ordering key attached to a published message: `none` models a nil Go
byte-slice key, `some k` a non-nil key with bytes `k`. -/
abbrev OKey := Option (List Nat)

/-- Modelled from the spec: the Ordering Sequencer's batching step (the
dispatch algorithm of a `Partition`, whose implementation is not in the
repository). It drains the pending sequence and groups consecutive
messages sharing the same ordering key into one batch. -/
def groupRuns {α : Type} : List (OKey × α) → List (OKey × List α)
  | [] => []
  | (k, m) :: rest =>
    match groupRuns rest with
    | [] => [(k, [m])]
    | (k', ms) :: bs =>
      if k = k' then (k, m :: ms) :: bs else (k, [m]) :: (k', ms) :: bs

/-- Concatenation of the message contents of a list of batches, in batch
order: the stream of messages a handler observes. -/
def catBatches {α : Type} : List (OKey × List α) → List α
  | [] => []
  | b :: bs => b.2 ++ catBatches bs

/-- The sub-sequence of batches carrying ordering key `k`, in schedule
order (the per-key cursor's view of a schedule). -/
def keyBatches {α : Type} (k : OKey) : List (OKey × List α) → List (OKey × List α)
  | [] => []
  | b :: bs => if b.1 = k then b :: keyBatches k bs else keyBatches k bs

/-- The sub-sequence of published messages carrying ordering key `k`, in
publish order. -/
def keyMsgs {α : Type} (k : OKey) : List (OKey × α) → List α
  | [] => []
  | e :: es => if e.1 = k then e.2 :: keyMsgs k es else keyMsgs k es

/-- Modelled from the spec: the set of delivery schedules the Ordering
Sequencer may produce (the sequencer implementation is not in the
repository). Batches of distinct keys interleave freely, but for every
fixed key the batches delivered are exactly the published batches of that
key, in publish order (per-key cursor). -/
def ValidDelivery {α : Type} (pub : List (OKey × α)) (deliv : List (OKey × List α)) : Prop :=
  ∀ k : OKey, keyBatches k deliv = keyBatches k (groupRuns pub)

/-- `m1`'s batch is handed to the handler no later than `m2`'s batch: either
one batch of the schedule holds both messages, or a batch holding `m1`
precedes a batch holding `m2`. -/
def DeliveredNoLater {α : Type} (deliv : List (OKey × List α)) (m1 m2 : α) : Prop :=
  (∃ b ∈ deliv, m1 ∈ b.2 ∧ m2 ∈ b.2) ∨
  ∃ b1 b2, List.Sublist [b1, b2] deliv ∧ m1 ∈ b1.2 ∧ m2 ∈ b2.2

/-- Delivery guarantee of a subscription. In the source this is
`type DeliveryGuarantee int` with constants assigned by `iota`:
`DeliverAtLeastOnce`, `DeliverExactlyOnce`, `DeliverAtMostOnceWithRetry`. -/
inductive DeliveryGuarantee where
  | deliverAtLeastOnce
  | deliverExactlyOnce
  | deliverAtMostOnceWithRetry
deriving DecidableEq, Repr

/-- The Go integer value of each `DeliveryGuarantee` constant, as assigned
by the `iota` block in the source. -/
def DeliveryGuarantee.goInt : DeliveryGuarantee → Int
  | .deliverAtLeastOnce => 0
  | .deliverExactlyOnce => 1
  | .deliverAtMostOnceWithRetry => 2

/-- The `DeliveryGuarantee` constant denoted by a Go integer value, if any. -/
def deliveryGuaranteeOfGoInt (n : Int) : Option DeliveryGuarantee :=
  if n = 0 then some .deliverAtLeastOnce
  else if n = 1 then some .deliverExactlyOnce
  else if n = 2 then some .deliverAtMostOnceWithRetry
  else none

/-- `SubscriptionOptions` from the source: all four fields are Go integer
types (`MaxMessageSize int`, `AckTimeout int64`,
`DeliveryGuarantee DeliveryGuarantee`, `MaxRetries int`). -/
structure SubscriptionOptions where
  maxMessageSize : Int
  ackTimeout : Int
  deliveryGuarantee : Int
  maxRetries : Int
deriving DecidableEq, Repr

/-- The Go zero value of `SubscriptionOptions`: a struct value constructed
without setting any field has every integer-typed field equal to 0. -/
def zeroSubscriptionOptions : SubscriptionOptions := ⟨0, 0, 0, 0⟩

/-- One in-flight delivery tracked by the Ack Tracker: the delivered
MessageID together with its retry count (failures so far). -/
structure PendingDelivery where
  msgId : String
  attempts : Nat
deriving DecidableEq, Repr

/-- A reported outcome for one accepted message: a successful ack, a
terminal delivery failure after retry exhaustion, or a lifecycle-closed
notification for a delivery pending when the subscription closed. -/
inductive Outcome where
  | ackSuccess (msgId : String)
  | deliveryFailed (msgId : String)
  | subClosed (msgId : String)
deriving DecidableEq, Repr

/-- The MessageID an outcome reports on. -/
def Outcome.mid : Outcome → String
  | .ackSuccess i => i
  | .deliveryFailed i => i
  | .subClosed i => i

/-- Modelled from the spec: the Ack Tracker and Dedup Ledger state of one
partition (their implementation is not in the repository): in-flight
deliveries, the dedup ledger of successful MessageIDs with their success
timestamps, the outcomes surfaced so far, and the log of handler
invocations (one entry per delivery attempt handed to the handler). -/
structure TrackerState where
  pending : List PendingDelivery
  ledger : List (String × Int)
  reports : List Outcome
  deliveries : List String
deriving DecidableEq, Repr

/-- The tracker state of a fresh subscription. -/
def initTracker : TrackerState := ⟨[], [], [], []⟩

/-- Events driving the Ack Tracker: a message accepted by `Publish` and
dispatched, an ack without error (with the success timestamp), an ack
carrying an error, an ack-timeout firing, a dedup-ledger retention
eviction, and the subscription closing. -/
inductive Event where
  | publish (msgId : String)
  | ackOk (msgId : String) (t : Int)
  | ackErr (msgId : String)
  | timeoutFire (msgId : String)
  | evict (msgId : String)
  | closeSub
deriving DecidableEq, Repr

/-- Whether some in-flight delivery tracks MessageID `i`. -/
def hasPend (i : String) : List PendingDelivery → Bool
  | [] => false
  | p :: ps => p.msgId = i || hasPend i ps

/-- Whether the dedup ledger holds a success mark for MessageID `i`. -/
def inLedger (i : String) : List (String × Int) → Bool
  | [] => false
  | e :: es => e.1 = i || inLedger i es

/-- Release the first in-flight delivery tracking `i` (ack resolution). -/
def releaseDelivery (i : String) : List PendingDelivery → List PendingDelivery
  | [] => []
  | p :: ps => if p.msgId = i then ps else p :: releaseDelivery i ps

/-- Drop every ledger entry for `i` (retention-window eviction). -/
def evictLedger (i : String) : List (String × Int) → List (String × Int)
  | [] => []
  | e :: es => if e.1 = i then evictLedger i es else e :: evictLedger i es

/-- Result of resolving a failed or timed-out delivery: the new in-flight
list, any terminal outcome reported, and the redelivery (a new handler
invocation) performed, if any. -/
structure FailResult where
  pending : List PendingDelivery
  reports : List Outcome
  redelivered : List String
deriving DecidableEq, Repr

/-- Modelled from the spec: resolution of an errored ack or an ack timeout
by the Ack Tracker (its implementation is not in the repository). The
retry count of the first delivery tracking `i` is incremented; while it
stays within `maxR` the message is redelivered — except that under
ExactlyOnce a message whose success is already in the ledger is released
instead — and once it exceeds `maxR` the delivery is dropped from tracking
with a terminal `deliveryFailed` outcome. -/
def failResolve (g : DeliveryGuarantee) (maxR : Nat) (led : List (String × Int)) (i : String) :
    List PendingDelivery → FailResult
  | [] => ⟨[], [], []⟩
  | p :: ps =>
    if p.msgId = i then
      if p.attempts + 1 ≤ maxR then
        if g = .deliverExactlyOnce ∧ inLedger i led = true then ⟨ps, [], []⟩
        else ⟨⟨i, p.attempts + 1⟩ :: ps, [], [i]⟩
      else ⟨ps, [Outcome.deliveryFailed i], []⟩
    else
      let r := failResolve g maxR led i ps
      ⟨p :: r.pending, r.reports, r.redelivered⟩

/-- Modelled from the spec: one Ack Tracker transition (the tracker
implementation is not in the repository). A publish dispatches the message
(first handler invocation) and starts tracking it; an error-free ack is a
no-op under ExactlyOnce when the ledger already holds the MessageID and
otherwise marks the ledger (under ExactlyOnce), releases the delivery and
reports success; an errored ack or a timeout resolves via `failResolve`;
eviction drops a ledger entry; closing fails all in-flight deliveries with
a lifecycle-closed outcome. -/
def step (g : DeliveryGuarantee) (maxR : Nat) (s : TrackerState) : Event → TrackerState
  | .publish i =>
    { s with pending := s.pending ++ [⟨i, 0⟩], deliveries := s.deliveries ++ [i] }
  | .ackOk i t =>
    if hasPend i s.pending then
      if g = .deliverExactlyOnce ∧ inLedger i s.ledger = true then s
      else
        { s with
          pending := releaseDelivery i s.pending,
          ledger := if g = .deliverExactlyOnce then s.ledger ++ [(i, t)] else s.ledger,
          reports := s.reports ++ [Outcome.ackSuccess i] }
    else s
  | .ackErr i =>
    let r := failResolve g maxR s.ledger i s.pending
    { s with pending := r.pending, reports := s.reports ++ r.reports,
             deliveries := s.deliveries ++ r.redelivered }
  | .timeoutFire i =>
    let r := failResolve g maxR s.ledger i s.pending
    { s with pending := r.pending, reports := s.reports ++ r.reports,
             deliveries := s.deliveries ++ r.redelivered }
  | .evict i => { s with ledger := evictLedger i s.ledger }
  | .closeSub =>
    { s with pending := [],
             reports := s.reports ++ s.pending.map (fun p => Outcome.subClosed p.msgId) }

/-- The tracker state after an event history, from a fresh subscription. -/
def run (g : DeliveryGuarantee) (maxR : Nat) (evs : List Event) : TrackerState :=
  evs.foldl (step g maxR) initTracker

/-- Number of ledger success marks for MessageID `i`. -/
def ledCount (i : String) : List (String × Int) → Nat
  | [] => 0
  | e :: es => (if e.1 = i then 1 else 0) + ledCount i es

/-- Number of in-flight deliveries tracking MessageID `i`. -/
def pendCount (i : String) : List PendingDelivery → Nat
  | [] => 0
  | p :: ps => (if p.msgId = i then 1 else 0) + pendCount i ps

/-- Number of reported outcomes for MessageID `i`. -/
def repCount (i : String) : List Outcome → Nat
  | [] => 0
  | o :: os => (if o.mid = i then 1 else 0) + repCount i os

/-- Number of publish events for MessageID `i` in an event history. -/
def pubCount (i : String) : List Event → Nat
  | [] => 0
  | Event.publish j :: es => (if j = i then 1 else 0) + pubCount i es
  | _ :: es => pubCount i es

/-- Bookkeeping invariant of the Ack Tracker: for a MessageID published at
most once, the in-flight deliveries and the reported outcomes together
account for exactly its publishes, a ledger success mark implies no
remaining in-flight delivery, and a ledger mark only exists for a
published message. -/
def TrackedInv (evs : List Event) (s : TrackerState) : Prop :=
  ∀ i : String, pubCount i evs ≤ 1 →
    (pendCount i s.pending + repCount i s.reports = pubCount i evs) ∧
    (inLedger i s.ledger = true → pendCount i s.pending = 0) ∧
    (inLedger i s.ledger = true → 1 ≤ pubCount i evs)

/-- Lifecycle state machine of a `Partition`: `Open → Draining → Closed`. -/
inductive LifState where
  | lsOpen
  | lsDraining
  | lsClosed
deriving DecidableEq, Repr

/-- The error taxonomy of the publish, subscribe and lifecycle boundaries. -/
inductive PubError where
  | invalidTopic
  | messageTooLarge
  | backlogFull
  | partitionClosed
  | alreadySubscribed
  | partitionLimitExceeded
  | subscriptionClosed
deriving DecidableEq, Repr

/-- Modelled from the spec: the externally observable state of one
`Partition` (the partition implementation is not in the repository): its
lifecycle state, the backlog of accepted-but-undelivered messages (each
with its effective ordering key and payload bytes), whether a handler is
registered, and the current default ordering key set by
`SetOrderingKey`. -/
structure PartState where
  life : LifState
  backlog : List (OKey × List Nat)
  subscribed : Bool
  currentKey : OKey
deriving DecidableEq, Repr

/-- A freshly created partition: open, empty backlog, no subscriber. -/
def initPart : PartState := ⟨.lsOpen, [], false, none⟩

/-- Static partition configuration: the publish-size limit
(`MaxMessageSize`, a Go `int`) and the backlog bound. -/
structure PartConfig where
  maxMessageSize : Int
  backlogLimit : Nat
deriving DecidableEq, Repr

/-- Modelled from the spec: `Partition.Publish` (its implementation is not
in the repository). Closed and draining partitions accept no publishes;
an open partition validates the payload against `MaxMessageSize` (failing
with `messageTooLarge`), then the backlog bound (failing with
`backlogFull`), then appends the message under its effective ordering key
(the explicit key, or the partition's current key when the explicit key is
nil). The partition state is returned unchanged on every failure. -/
def PartState.publish (cfg : PartConfig) (s : PartState) (value : List Nat) (okey : OKey) :
    PartState × Option PubError :=
  match s.life with
  | .lsClosed => (s, some .partitionClosed)
  | .lsDraining => (s, some .partitionClosed)
  | .lsOpen =>
    if (value.length : Int) > cfg.maxMessageSize then (s, some .messageTooLarge)
    else if cfg.backlogLimit ≤ s.backlog.length then (s, some .backlogFull)
    else
      let effKey : OKey := match okey with | some k => some k | none => s.currentKey
      ({ s with backlog := s.backlog ++ [(effKey, value)] }, none)

/-- Modelled from the spec: `Partition.Subscribe` registers the single
active handler of an open partition; a second subscribe fails with
`alreadySubscribed`, and draining or closed partitions refuse it. -/
def PartState.subscribe (s : PartState) : PartState × Option PubError :=
  match s.life with
  | .lsClosed => (s, some .partitionClosed)
  | .lsDraining => (s, some .partitionClosed)
  | .lsOpen =>
    if s.subscribed then (s, some .alreadySubscribed)
    else ({ s with subscribed := true }, none)

/-- Modelled from the spec: `Partition.SetOrderingKey` establishes the key
used for messages published without an explicit key in subsequent calls;
it fails on a closed partition. -/
def PartState.setOrderingKey (s : PartState) (k : OKey) : PartState × Option PubError :=
  match s.life with
  | .lsClosed => (s, some .partitionClosed)
  | _ => ({ s with currentKey := k }, none)

/-- Modelled from the spec: `Partition.Unsubscribe` moves an open partition
to draining; it fails on a closed partition, and with
`subscriptionClosed` when already draining. -/
def PartState.unsubscribe (s : PartState) : PartState × Option PubError :=
  match s.life with
  | .lsClosed => (s, some .partitionClosed)
  | .lsDraining => (s, some .subscriptionClosed)
  | .lsOpen => ({ s with life := .lsDraining, subscribed := false }, none)

/-- Modelled from the spec: `Partition.Close` is idempotent, releases the
buffered messages and drops the subscriber; `Closed` is terminal. -/
def PartState.close (s : PartState) : PartState × Option PubError :=
  ({ life := .lsClosed, backlog := [], subscribed := false, currentKey := s.currentKey }, none)

/-- The delivery schedule a partition's dispatcher derives from its
backlog: the Ordering Sequencer's consecutive same-key batches. -/
def dispatchSchedule (s : PartState) : List (OKey × List (List Nat)) :=
  groupRuns s.backlog

/-- Modelled from the spec: the partition registry owned by one
`Partitioner` (its implementation is not in the repository): at most one
partition per (topic, partition ID) pair. -/
structure Registry where
  parts : List ((String × Nat) × PartState)
deriving DecidableEq, Repr

/-- Look up the partition registered under (topic, partition ID) in a
registry entry list. -/
def lookupPart (t : String) (pid : Nat) : List ((String × Nat) × PartState) → Option PartState
  | [] => none
  | e :: l => if e.1.1 = t ∧ e.1.2 = pid then some e.2 else lookupPart t pid l

/-- Look up the partition registered under (topic, partition ID). -/
def findPart (r : Registry) (t : String) (pid : Nat) : Option PartState :=
  lookupPart t pid r.parts

/-- Modelled from the spec: `Partitioner.Partition(topic, key)` (its
implementation is not in the repository). The key is mapped to a partition
ID by the deterministic `hash`; an empty topic fails with `invalidTopic`;
otherwise the partition is looked up, being created on first use. -/
def getPartition (hash : List Nat → Nat) (r : Registry) (t : String) (key : List Nat) :
    Registry × Option PubError :=
  if t = "" then (r, some .invalidTopic)
  else if (findPart r t (hash key)).isSome then (r, none)
  else ({ parts := r.parts ++ [((t, hash key), initPart)] }, none)

/-- Close the partition registered under (topic, partition ID), leaving
every other registry entry as it is. -/
def closePartition (r : Registry) (t : String) (pid : Nat) : Registry :=
  { parts := r.parts.map (fun e =>
      if e.1.1 = t ∧ e.1.2 = pid then (e.1, (PartState.close e.2).1) else e) }

lemma keyBatches_sublist {α : Type} (k : OKey) :
    ∀ bs : List (OKey × List α), List.Sublist (keyBatches k bs) bs
  | [] => List.Sublist.slnil
  | b :: bs => by
    by_cases h : b.1 = k
    · simpa [keyBatches, h] using List.Sublist.cons₂ b (keyBatches_sublist k bs)
    · simpa [keyBatches, h] using List.Sublist.cons b (keyBatches_sublist k bs)

lemma keyMsgs_sublist_of_sublist {α : Type} (k : OKey) :
    ∀ {l₁ l₂ : List (OKey × α)}, List.Sublist l₁ l₂ →
      List.Sublist (keyMsgs k l₁) (keyMsgs k l₂) := by
  intro l₁ l₂ h
  induction h with
  | slnil => exact List.Sublist.slnil
  | cons e h ih =>
    by_cases hk : e.1 = k
    · simpa [keyMsgs, hk] using List.Sublist.trans ih (List.Sublist.cons e.2 (List.Sublist.refl _))
    · simpa [keyMsgs, hk] using ih
  | cons₂ e h ih =>
    by_cases hk : e.1 = k
    · simpa [keyMsgs, hk] using List.Sublist.cons₂ e.2 ih
    · simpa [keyMsgs, hk] using ih

lemma mem_catBatches {α : Type} {x : α} :
    ∀ {bs : List (OKey × List α)}, x ∈ catBatches bs ↔ ∃ b ∈ bs, x ∈ b.2 := by
  intro bs
  induction bs with
  | nil => simp [catBatches]
  | cons b bs ih => simp [catBatches, ih, List.mem_append, or_and_right, exists_or]

lemma pair_sublist_append {α : Type} {x y : α} :
    ∀ {l₁ l₂ : List α}, List.Sublist [x, y] (l₁ ++ l₂) →
      List.Sublist [x, y] l₁ ∨ (x ∈ l₁ ∧ y ∈ l₂) ∨ List.Sublist [x, y] l₂ := by
  intro l₁
  induction l₁ with
  | nil => intro l₂ h; exact Or.inr (Or.inr (by simpa using h))
  | cons a l₁ ih =>
    intro l₂ h
    cases h with
    | cons _ h' =>
      rcases ih h' with h1 | ⟨hx, hy⟩ | h2
      · exact Or.inl (List.Sublist.cons a h1)
      · exact Or.inr (Or.inl ⟨List.mem_cons_of_mem a hx, hy⟩)
      · exact Or.inr (Or.inr h2)
    | cons₂ _ h' =>
      have hy : y ∈ l₁ ++ l₂ := (List.singleton_sublist.mp h')
      rcases List.mem_append.mp hy with h1 | h2
      · exact Or.inl (List.Sublist.cons₂ x (List.singleton_sublist.mpr h1))
      · exact Or.inr (Or.inl ⟨List.mem_cons_self x l₁, h2⟩)

lemma pair_sublist_catBatches {α : Type} {x y : α} :
    ∀ {bs : List (OKey × List α)}, List.Sublist [x, y] (catBatches bs) →
      (∃ b ∈ bs, x ∈ b.2 ∧ y ∈ b.2) ∨
      ∃ b1 b2, List.Sublist [b1, b2] bs ∧ x ∈ b1.2 ∧ y ∈ b2.2 := by
  intro bs
  induction bs with
  | nil => intro h; simp [catBatches] at h
  | cons b bs ih =>
    intro h
    rcases pair_sublist_append (by simpa [catBatches] using h) with h1 | ⟨hx, hy⟩ | h2
    · exact Or.inl ⟨b, List.mem_cons_self b bs,
        h1.subset (by simp), h1.subset (by simp)⟩
    · rcases mem_catBatches.mp hy with ⟨b2, hb2, hyb2⟩
      exact Or.inr ⟨b, b2, List.Sublist.cons₂ b (List.singleton_sublist.mpr hb2), hx, hyb2⟩
    · rcases ih h2 with ⟨b', hb', hx', hy'⟩ | ⟨b1, b2, hs, hx', hy'⟩
      · exact Or.inl ⟨b', List.mem_cons_of_mem b hb', hx', hy'⟩
      · exact Or.inr ⟨b1, b2, List.Sublist.cons b hs, hx', hy'⟩

lemma catBatches_keyBatches_groupRuns {α : Type} (k : OKey) :
    ∀ l : List (OKey × α),
      catBatches (keyBatches k (groupRuns l)) = keyMsgs k l
  | [] => by simp [groupRuns, keyBatches, keyMsgs, catBatches]
  | (k0, m) :: rest => by
    have ih := catBatches_keyBatches_groupRuns k rest
    cases hgr : groupRuns (α := α) rest with
    | nil =>
      rw [hgr] at ih
      by_cases hk : k0 = k <;>
        simp [groupRuns, hgr, keyBatches, keyMsgs, catBatches, hk] at ih ⊢ <;>
        simpa using ih.symm
    | cons hd bs =>
      obtain ⟨k', ms⟩ := hd
      rw [hgr] at ih
      by_cases hk0 : k0 = k' <;> by_cases hk : k0 = k
      · subst hk0; subst hk
        simp [keyBatches, keyMsgs, catBatches] at ih
        simp [groupRuns, hgr, keyBatches, keyMsgs, catBatches, ih]
      · subst hk0
        simp [keyBatches, keyMsgs, catBatches, hk] at ih
        simp [groupRuns, hgr, keyBatches, keyMsgs, catBatches, hk, ih]
      · subst hk
        simp [keyBatches, keyMsgs, catBatches, Ne.symm hk0] at ih
        simp [groupRuns, hgr, hk0, keyBatches, keyMsgs, catBatches, Ne.symm hk0, ih]
      · simp [keyBatches, keyMsgs, catBatches, hk] at ih
        simp [groupRuns, hgr, hk0, keyBatches, keyMsgs, catBatches, hk, ih]

lemma fifo_of_valid {α : Type} {pub : List (OKey × α)} {deliv : List (OKey × List α)}
    {k : OKey} {m1 m2 : α}
    (hsub : List.Sublist [(k, m1), (k, m2)] pub)
    (hvalid : ValidDelivery pub deliv) :
    DeliveredNoLater deliv m1 m2 := by
  have h1 : List.Sublist (keyMsgs k [(k, m1), (k, m2)]) (keyMsgs k pub) :=
    keyMsgs_sublist_of_sublist k hsub
  have h2 : keyMsgs k [(k, m1), (k, m2)] = [m1, m2] := by simp [keyMsgs]
  rw [h2] at h1
  have h3 : catBatches (keyBatches k deliv) = keyMsgs k pub := by
    rw [hvalid k]; exact catBatches_keyBatches_groupRuns k pub
  rw [← h3] at h1
  rcases pair_sublist_catBatches h1 with ⟨b, hb, hx, hy⟩ | ⟨b1, b2, hs, hx, hy⟩
  · exact Or.inl ⟨b, (keyBatches_sublist k deliv).subset hb, hx, hy⟩
  · exact Or.inr ⟨b1, b2, hs.trans (keyBatches_sublist k deliv), hx, hy⟩

/-- Claim C1: for every pair of messages published on the same partition
with the same non-empty ordering key, the earlier-published message's
batch is handed to the handler no later than the later message's batch, in
every delivery schedule the Ordering Sequencer may produce. -/
theorem sameKey_delivery_fifo {α : Type} (pub : List (OKey × α))
    (deliv : List (OKey × List α)) (k : List Nat) (m1 m2 : α)
    (_hkey : k ≠ [])
    (hpub : List.Sublist [(some k, m1), (some k, m2)] pub)
    (hvalid : ValidDelivery pub deliv) :
    DeliveredNoLater deliv m1 m2 :=
  fifo_of_valid hpub hvalid

/-- Witness for C1 at a concrete publish history and delivery schedule. -/
theorem sameKey_delivery_fifo_witness :
    DeliveredNoLater (groupRuns [(some [1], 10), (some [2], 20), (some [1], 11)]) 10 11 :=
  sameKey_delivery_fifo [(some [1], 10), (some [2], 20), (some [1], 11)]
    (groupRuns [(some [1], 10), (some [2], 20), (some [1], 11)]) [1] 10 11
    (by decide) (by decide) (fun _ => rfl)

/-- Claim C10: messages published with a nil ordering key are delivered to
the handler in publish order relative to each other, in every delivery
schedule the Ordering Sequencer may produce. -/
theorem nilKey_delivery_fifo {α : Type} (pub : List (OKey × α))
    (deliv : List (OKey × List α)) (m1 m2 : α)
    (hpub : List.Sublist [(none, m1), (none, m2)] pub)
    (hvalid : ValidDelivery pub deliv) :
    DeliveredNoLater deliv m1 m2 :=
  fifo_of_valid hpub hvalid

/-- Witness for C10 at a concrete publish history and delivery schedule. -/
theorem nilKey_delivery_fifo_witness :
    DeliveredNoLater (groupRuns [((none : OKey), 1), (some [7], 2), (none, 3)]) 1 3 :=
  nilKey_delivery_fifo [((none : OKey), 1), (some [7], 2), (none, 3)]
    (groupRuns [((none : OKey), 1), (some [7], 2), (none, 3)]) 1 3
    (by decide) (fun _ => rfl)

/-- Claim C9: the Go zero value of `DeliveryGuarantee` denotes
`DeliverAtLeastOnce` (the first iota constant has value 0), so a
`SubscriptionOptions` value constructed without setting a guarantee
requests at-least-once delivery. -/
theorem zero_value_guarantee_atLeastOnce :
    deliveryGuaranteeOfGoInt zeroSubscriptionOptions.deliveryGuarantee =
      some DeliveryGuarantee.deliverAtLeastOnce ∧
    DeliveryGuarantee.goInt DeliveryGuarantee.deliverAtLeastOnce = 0 :=
  ⟨rfl, rfl⟩

/-- Claim C6: a closed partition is terminal: Publish, Subscribe,
SetOrderingKey and Unsubscribe all fail with `partitionClosed` and leave
the state unchanged, and Close keeps the partition closed. -/
theorem closed_partition_terminal (cfg : PartConfig) (s : PartState) (v : List Nat)
    (ok k : OKey) (h : s.life = LifState.lsClosed) :
    s.publish cfg v ok = (s, some PubError.partitionClosed) ∧
    s.subscribe = (s, some PubError.partitionClosed) ∧
    s.setOrderingKey k = (s, some PubError.partitionClosed) ∧
    s.unsubscribe = (s, some PubError.partitionClosed) ∧
    (PartState.close s).1.life = LifState.lsClosed := by
  refine ⟨?_, ?_, ?_, ?_, rfl⟩ <;>
    simp [PartState.publish, PartState.subscribe, PartState.setOrderingKey,
      PartState.unsubscribe, h]

/-- Witness for C6 at a concrete closed partition. -/
theorem closed_partition_terminal_witness :
    PartState.subscribe ⟨LifState.lsClosed, [], false, none⟩ =
      (⟨LifState.lsClosed, [], false, none⟩, some PubError.partitionClosed) :=
  (closed_partition_terminal ⟨10, 5⟩ ⟨LifState.lsClosed, [], false, none⟩ [1] none none
    rfl).2.1

/-- Claim C4: on an open partition, `Publish` of a payload longer than
`MaxMessageSize` always fails with `messageTooLarge` and leaves the
partition — and hence the delivery schedule its dispatcher hands to the
handler — unchanged, so the message never reaches a handler; payloads
within the limit pass this validation. -/
theorem publish_size_validation (cfg : PartConfig) (s : PartState) (v : List Nat)
    (ok : OKey) (hopen : s.life = LifState.lsOpen) :
    ((v.length : Int) > cfg.maxMessageSize →
      s.publish cfg v ok = (s, some PubError.messageTooLarge) ∧
      dispatchSchedule (s.publish cfg v ok).1 = dispatchSchedule s) ∧
    ((v.length : Int) ≤ cfg.maxMessageSize →
      (s.publish cfg v ok).2 ≠ some PubError.messageTooLarge) := by
  constructor
  · intro hbig
    have hres : s.publish cfg v ok = (s, some PubError.messageTooLarge) := by
      simp [PartState.publish, hopen, hbig]
    exact ⟨hres, by rw [hres]⟩
  · intro hle
    have hnot : ¬ (v.length : Int) > cfg.maxMessageSize := not_lt.mpr hle
    by_cases hb : cfg.backlogLimit ≤ s.backlog.length <;>
      simp [PartState.publish, hopen, hnot, hb]

/-- Witness for C4: a two-byte payload against a one-byte limit. -/
theorem publish_size_validation_witness :
    PartState.publish ⟨1, 5⟩ initPart [3, 4] none = (initPart, some PubError.messageTooLarge) :=
  ((publish_size_validation ⟨1, 5⟩ initPart [3, 4] none rfl).1 (by decide)).1

lemma lookupPart_map_close (t : String) (pidA pidB : Nat) (h : pidA ≠ pidB) :
    ∀ l : List ((String × Nat) × PartState),
      lookupPart t pidA
          (l.map (fun e =>
            if e.1.1 = t ∧ e.1.2 = pidB then (e.1, (PartState.close e.2).1) else e)) =
        lookupPart t pidA l
  | [] => rfl
  | e :: l => by
    by_cases hcl : e.1.1 = t ∧ e.1.2 = pidB
    · have hfa : ¬ (e.1.1 = t ∧ e.1.2 = pidA) := fun hfa => h (hfa.2.symm.trans hcl.2)
      simp [lookupPart, hcl, hfa, h, Ne.symm h, lookupPart_map_close t pidA pidB h l]
    · by_cases hfa : e.1.1 = t ∧ e.1.2 = pidA
      · simp [lookupPart, hcl, hfa, h, Ne.symm h]
      · simp [lookupPart, hcl, hfa, h, Ne.symm h, lookupPart_map_close t pidA pidB h l]

/-- Claim C7: partitions whose keys hash to different partition IDs are
independent: closing the partition of one key leaves the partition
registered for the other key — and the delivery schedule its dispatcher
derives — unchanged. -/
theorem close_partition_frame (hash : List Nat → Nat) (r : Registry) (t : String)
    (keyA keyB : List Nat) (h : hash keyA ≠ hash keyB) :
    findPart (closePartition r t (hash keyB)) t (hash keyA) = findPart r t (hash keyA) ∧
    (findPart (closePartition r t (hash keyB)) t (hash keyA)).map dispatchSchedule =
      (findPart r t (hash keyA)).map dispatchSchedule := by
  have hfind : findPart (closePartition r t (hash keyB)) t (hash keyA) =
      findPart r t (hash keyA) := by
    unfold findPart closePartition
    exact lookupPart_map_close t (hash keyA) (hash keyB) h r.parts
  exact ⟨hfind, by rw [hfind]⟩

/-- Witness for C7 with a length hash and keys of different lengths. -/
theorem close_partition_frame_witness :
    findPart
        (closePartition (Registry.mk [(("T", 1), initPart), (("T", 2), initPart)]) "T"
          (List.length [8, 9]))
        "T" (List.length [4]) =
      findPart (Registry.mk [(("T", 1), initPart), (("T", 2), initPart)]) "T"
        (List.length [4]) :=
  (close_partition_frame List.length
    (Registry.mk [(("T", 1), initPart), (("T", 2), initPart)]) "T" [4] [8, 9] (by decide)).1

lemma inLedger_append (i : String) (l1 l2 : List (String × Int)) :
    inLedger i (l1 ++ l2) = (inLedger i l1 || inLedger i l2) := by
  induction l1 with
  | nil => simp [inLedger]
  | cons e l ih => simp [inLedger, ih, Bool.or_assoc]

/-- Claim C5: under ExactlyOnce, resolving a successful ack for the same
MessageID twice equals resolving it once: the second ack is a no-op, the
dedup ledger and all delivery-tracking state are unchanged by it. -/
theorem exactlyOnce_ack_idempotent (maxR : Nat) (s : TrackerState) (i : String)
    (t t' : Int) :
    step DeliveryGuarantee.deliverExactlyOnce maxR
        (step DeliveryGuarantee.deliverExactlyOnce maxR s (Event.ackOk i t))
        (Event.ackOk i t') =
      step DeliveryGuarantee.deliverExactlyOnce maxR s (Event.ackOk i t) := by
  by_cases h1 : hasPend i s.pending
  · by_cases h2 : inLedger i s.ledger = true
    · simp [step, h1, h2]
    · by_cases h3 : hasPend i (releaseDelivery i s.pending) <;>
        simp [step, h1, h2, h3, inLedger_append, inLedger]
  · simp [step, h1]

lemma ledCount_append (i : String) (l1 l2 : List (String × Int)) :
    ledCount i (l1 ++ l2) = ledCount i l1 + ledCount i l2 := by
  induction l1 with
  | nil => simp [ledCount]
  | cons e l ih => simp [ledCount, ih, Nat.add_assoc]

lemma inLedger_eq_false_iff (i : String) (l : List (String × Int)) :
    inLedger i l = false ↔ ledCount i l = 0 := by
  induction l with
  | nil => simp [inLedger, ledCount]
  | cons e l ih => by_cases h : e.1 = i <;> simp [inLedger, ledCount, h, ih]

lemma ledCount_evictLedger_le (i j : String) (l : List (String × Int)) :
    ledCount i (evictLedger j l) ≤ ledCount i l := by
  induction l with
  | nil => simp [evictLedger]
  | cons e l ih =>
    by_cases h : e.1 = j
    · calc ledCount i (evictLedger j (e :: l)) = ledCount i (evictLedger j l) := by
            simp [evictLedger, h]
        _ ≤ ledCount i l := ih
        _ ≤ ledCount i (e :: l) := by simp only [ledCount]; split <;> omega
    · simp only [evictLedger, h, if_false, ledCount]
      split <;> omega

lemma ledCount_step_le_one (g : DeliveryGuarantee) (maxR : Nat) (s : TrackerState)
    (hs : ∀ j, ledCount j s.ledger ≤ 1) (e : Event) :
    ∀ j, ledCount j (step g maxR s e).ledger ≤ 1 := by
  intro j
  cases e with
  | publish i => simpa [step] using hs j
  | ackOk i t =>
    by_cases h1 : hasPend i s.pending
    · by_cases h2 : g = DeliveryGuarantee.deliverExactlyOnce ∧ inLedger i s.ledger = true
      · simpa [step, h1, h2] using hs j
      · by_cases hg : g = DeliveryGuarantee.deliverExactlyOnce
        · have hnl : inLedger i s.ledger = false := by
            cases hb : inLedger i s.ledger with
            | false => rfl
            | true => exact absurd ⟨hg, hb⟩ h2
          subst hg
          by_cases hij : i = j
          · subst hij
            have h0 : ledCount i s.ledger = 0 := (inLedger_eq_false_iff i s.ledger).mp hnl
            simp [step, h1, hnl, ledCount_append, ledCount, h0]
          · have hj := hs j
            simp [step, h1, hnl, ledCount_append, ledCount, hij]
            omega
        · simpa [step, h1, h2, hg] using hs j
    · simpa [step, h1] using hs j
  | ackErr i => simpa [step] using hs j
  | timeoutFire i => simpa [step] using hs j
  | evict i => simpa [step] using le_trans (ledCount_evictLedger_le j i s.ledger) (hs j)
  | closeSub => simpa [step] using hs j

lemma ledCount_run_le_one (g : DeliveryGuarantee) (maxR : Nat) :
    ∀ (evs : List Event) (s : TrackerState), (∀ j, ledCount j s.ledger ≤ 1) →
      ∀ j, ledCount j (List.foldl (step g maxR) s evs).ledger ≤ 1
  | [], _, hs => hs
  | e :: evs, s, hs => by
    simpa [List.foldl] using
      ledCount_run_le_one g maxR evs (step g maxR s e) (ledCount_step_le_one g maxR s hs e)

/-- Claim C2: under ExactlyOnce, every MessageID carries at most one
success mark in the dedup ledger after any event history, no matter how
many retried handler invocations occurred. -/
theorem exactlyOnce_ledger_at_most_one (maxR : Nat) (evs : List Event) (i : String) :
    ledCount i (run DeliveryGuarantee.deliverExactlyOnce maxR evs).ledger ≤ 1 :=
  ledCount_run_le_one DeliveryGuarantee.deliverExactlyOnce maxR evs initTracker
    (fun j => by simp [initTracker, ledCount]) i

lemma errLoop (maxR : Nat) (i : String) :
    ∀ (k c : Nat), c + k = maxR →
      ∀ (L : List (String × Int)) (R : List Outcome) (D : List String),
        List.foldl (step DeliveryGuarantee.deliverAtLeastOnce maxR) ⟨[⟨i, c⟩], L, R, D⟩
            (List.replicate (k + 1) (Event.ackErr i)) =
          ⟨[], L, R ++ [Outcome.deliveryFailed i], D ++ List.replicate k i⟩
  | 0, c, hc, L, R, D => by
    have hb : ¬ (c + 1 ≤ maxR) := by omega
    simp [List.replicate, step, failResolve, hb]
  | (k + 1), c, hc, L, R, D => by
    have hle : c + 1 ≤ maxR := by omega
    have hstep : step DeliveryGuarantee.deliverAtLeastOnce maxR ⟨[⟨i, c⟩], L, R, D⟩
        (Event.ackErr i) = ⟨[⟨i, c + 1⟩], L, R, D ++ [i]⟩ := by
      simp [step, failResolve, hle]
    have hrep : List.replicate (k + 1 + 1) (Event.ackErr i) =
        Event.ackErr i :: List.replicate (k + 1) (Event.ackErr i) := rfl
    rw [hrep, List.foldl_cons, hstep, errLoop maxR i k (c + 1) (by omega) L R (D ++ [i])]
    simp [List.replicate_succ]

/-- Claim C3: under AtLeastOnce with `MaxRetries = N`, a message whose
handler errors on every attempt is handed to the handler exactly `N + 1`
times, then reported with a terminal `deliveryFailed` outcome and removed
from tracking. -/
theorem atLeastOnce_retry_exhaustion (maxR : Nat) (i : String) :
    run DeliveryGuarantee.deliverAtLeastOnce maxR
        (Event.publish i :: List.replicate (maxR + 1) (Event.ackErr i)) =
      ⟨[], [], [Outcome.deliveryFailed i], List.replicate (maxR + 1) i⟩ := by
  have h0 : step DeliveryGuarantee.deliverAtLeastOnce maxR initTracker (Event.publish i) =
      ⟨[⟨i, 0⟩], [], [], [i]⟩ := by simp [step, initTracker]
  rw [run, List.foldl_cons, h0, errLoop maxR i maxR 0 (by omega) [] [] [i]]
  simp [List.replicate_succ]

lemma pubCount_append (i : String) (l1 l2 : List Event) :
    pubCount i (l1 ++ l2) = pubCount i l1 + pubCount i l2 := by
  induction l1 with
  | nil => simp [pubCount]
  | cons e l ih => cases e <;> simp [pubCount, ih, Nat.add_assoc]

lemma pendCount_append (i : String) (l1 l2 : List PendingDelivery) :
    pendCount i (l1 ++ l2) = pendCount i l1 + pendCount i l2 := by
  induction l1 with
  | nil => simp [pendCount]
  | cons p l ih => simp [pendCount, ih, Nat.add_assoc]

lemma repCount_append (i : String) (l1 l2 : List Outcome) :
    repCount i (l1 ++ l2) = repCount i l1 + repCount i l2 := by
  induction l1 with
  | nil => simp [repCount]
  | cons o l ih => simp [repCount, ih, Nat.add_assoc]

lemma hasPend_true_le (i : String) (l : List PendingDelivery)
    (h : hasPend i l = true) : 1 ≤ pendCount i l := by
  induction l with
  | nil => simp [hasPend] at h
  | cons p ps ih =>
    by_cases hp : p.msgId = i
    · simp [pendCount, hp]
    · have h' : hasPend i ps = true := by simpa [hasPend, hp] using h
      simpa [pendCount, hp] using ih h'

lemma pendCount_release_self (i : String) (l : List PendingDelivery)
    (h : hasPend i l = true) :
    pendCount i (releaseDelivery i l) + 1 = pendCount i l := by
  induction l with
  | nil => simp [hasPend] at h
  | cons p ps ih =>
    by_cases hp : p.msgId = i
    · simp [releaseDelivery, hp, pendCount]
      omega
    · have h' : hasPend i ps = true := by simpa [hasPend, hp] using h
      have := ih h'
      simp [releaseDelivery, hp, pendCount]
      omega

lemma pendCount_release_ne (i j : String) (l : List PendingDelivery) (h : j ≠ i) :
    pendCount j (releaseDelivery i l) = pendCount j l := by
  induction l with
  | nil => simp [releaseDelivery]
  | cons p ps ih =>
    by_cases hp : p.msgId = i
    · have hpj : p.msgId ≠ j := by rw [hp]; exact Ne.symm h
      simp [releaseDelivery, hp, pendCount, hpj, Ne.symm h]
    · simp [releaseDelivery, hp, pendCount, ih]

lemma repCount_subClosed_map (i : String) (l : List PendingDelivery) :
    repCount i (l.map (fun p => Outcome.subClosed p.msgId)) = pendCount i l := by
  induction l with
  | nil => simp [repCount, pendCount]
  | cons p ps ih =>
    by_cases hp : p.msgId = i <;> simp [repCount, pendCount, Outcome.mid, hp, ih]

lemma inLedger_evictLedger_imp (i j : String) (l : List (String × Int))
    (h : inLedger i (evictLedger j l) = true) : inLedger i l = true := by
  induction l with
  | nil => simpa [evictLedger] using h
  | cons e l ih =>
    by_cases he : e.1 = j
    · have := ih (by simpa [evictLedger, he] using h)
      simp [inLedger, this]
    · by_cases hei : e.1 = i
      · simp [inLedger, hei]
      · have := ih (by simpa [evictLedger, inLedger, he, hei] using h)
        simp [inLedger, hei, this]

lemma failResolve_not_pend (g : DeliveryGuarantee) (maxR : Nat) (led : List (String × Int))
    (i : String) (l : List PendingDelivery) (h : hasPend i l = false) :
    failResolve g maxR led i l = ⟨l, [], []⟩ := by
  induction l with
  | nil => rfl
  | cons p ps ih =>
    by_cases hp : p.msgId = i
    · simp [hasPend, hp] at h
    · have h' : hasPend i ps = false := by simpa [hasPend, hp] using h
      simp [failResolve, hp, ih h']

lemma failResolve_reports_cases (g : DeliveryGuarantee) (maxR : Nat)
    (led : List (String × Int)) (i : String) (l : List PendingDelivery) :
    (failResolve g maxR led i l).reports = [] ∨
      (failResolve g maxR led i l).reports = [Outcome.deliveryFailed i] := by
  induction l with
  | nil => left; rfl
  | cons p ps ih =>
    by_cases hp : p.msgId = i
    · by_cases hle : p.attempts + 1 ≤ maxR
      · by_cases hEO : g = DeliveryGuarantee.deliverExactlyOnce ∧ inLedger i led = true
        · left; simp [failResolve, hp, hle, hEO]
        · left; simp [failResolve, hp, hle, hEO]
      · right; simp [failResolve, hp, hle]
    · simpa [failResolve, hp] using ih

lemma failResolve_pendCount_ne (g : DeliveryGuarantee) (maxR : Nat)
    (led : List (String × Int)) (i j : String) (l : List PendingDelivery) (h : j ≠ i) :
    pendCount j (failResolve g maxR led i l).pending = pendCount j l := by
  induction l with
  | nil => rfl
  | cons p ps ih =>
    by_cases hp : p.msgId = i
    · have hpj : p.msgId ≠ j := by rw [hp]; exact Ne.symm h
      by_cases hle : p.attempts + 1 ≤ maxR
      · by_cases hEO : g = DeliveryGuarantee.deliverExactlyOnce ∧ inLedger i led = true
        · simp [failResolve, hp, hle, hEO, pendCount, hpj, Ne.symm h]
        · simp [failResolve, hp, hle, hEO, pendCount, hpj, Ne.symm h]
      · simp [failResolve, hp, hle, pendCount, hpj, Ne.symm h]
    · simp [failResolve, hp, pendCount, ih]

lemma failResolve_same (g : DeliveryGuarantee) (maxR : Nat) (led : List (String × Int))
    (i : String) (l : List PendingDelivery) (h : hasPend i l = true) :
    (pendCount i (failResolve g maxR led i l).pending = pendCount i l ∧
      (failResolve g maxR led i l).reports = []) ∨
    (pendCount i (failResolve g maxR led i l).pending + 1 = pendCount i l ∧
      (failResolve g maxR led i l).reports = [Outcome.deliveryFailed i]) ∨
    (pendCount i (failResolve g maxR led i l).pending + 1 = pendCount i l ∧
      (failResolve g maxR led i l).reports = [] ∧ inLedger i led = true) := by
  induction l with
  | nil => simp [hasPend] at h
  | cons p ps ih =>
    by_cases hp : p.msgId = i
    · by_cases hle : p.attempts + 1 ≤ maxR
      · by_cases hEO : g = DeliveryGuarantee.deliverExactlyOnce ∧ inLedger i led = true
        · right; right
          refine ⟨?_, ?_, hEO.2⟩ <;> simp [failResolve, hp, hle, hEO, pendCount] <;> omega
        · left
          constructor <;> simp [failResolve, hp, hle, hEO, pendCount] <;> omega
      · right; left
        constructor <;> simp [failResolve, hp, hle, pendCount] <;> omega
    · have h' : hasPend i ps = true := by simpa [hasPend, hp] using h
      rcases ih h' with ⟨h1, h2⟩ | ⟨h1, h2⟩ | ⟨h1, h2, h3⟩
      · left
        constructor <;> simp [failResolve, hp, pendCount, h1, h2] <;> omega
      · right; left
        refine ⟨?_, by simp [failResolve, hp, h2]⟩
        simp [failResolve, hp, pendCount, h1] <;> omega
      · right; right
        refine ⟨?_, by simp [failResolve, hp, h2], h3⟩
        simp [failResolve, hp, pendCount, h1] <;> omega

lemma trackedInv_congr_events (evs evs' : List Event) (s : TrackerState)
    (h : ∀ i, pubCount i evs = pubCount i evs') (hs : TrackedInv evs s) :
    TrackedInv evs' s := by
  intro i hi
  rw [← h i] at hi
  obtain ⟨ha, hb, hc⟩ := hs i hi
  exact ⟨by rw [← h i]; exact ha, hb, fun hl => by rw [← h i]; exact hc hl⟩

lemma trackedInv_afterFail (g : DeliveryGuarantee) (maxR : Nat) (evs : List Event)
    (s : TrackerState) (hs : TrackedInv evs s) (i0 : String) :
    TrackedInv evs
      { pending := (failResolve g maxR s.ledger i0 s.pending).pending,
        ledger := s.ledger,
        reports := s.reports ++ (failResolve g maxR s.ledger i0 s.pending).reports,
        deliveries := s.deliveries ++ (failResolve g maxR s.ledger i0 s.pending).redelivered } := by
  intro i hi
  obtain ⟨ha, hb, hc⟩ := hs i hi
  by_cases h1 : hasPend i0 s.pending
  · by_cases hii : i0 = i
    · subst hii
      have hple := hasPend_true_le i0 s.pending h1
      rcases failResolve_same g maxR s.ledger i0 s.pending h1 with
        ⟨e1, e2⟩ | ⟨e1, e2⟩ | ⟨e1, e2, hL⟩
      · refine ⟨?_, ?_, fun hl => hc hl⟩
        · simp [e1, e2, repCount_append, repCount] <;> omega
        · intro hl
          exact absurd (hb hl) (by omega)
      · refine ⟨?_, ?_, fun hl => hc hl⟩
        · simp [e2, repCount_append, repCount, Outcome.mid] <;> omega
        · intro hl
          exact absurd (hb hl) (by omega)
      · exact absurd (hb hL) (by omega)
    · have hne : pendCount i (failResolve g maxR s.ledger i0 s.pending).pending =
          pendCount i s.pending :=
        failResolve_pendCount_ne g maxR s.ledger i0 i s.pending (Ne.symm hii)
      have hrep : repCount i (failResolve g maxR s.ledger i0 s.pending).reports = 0 := by
        rcases failResolve_reports_cases g maxR s.ledger i0 s.pending with h2 | h2 <;>
          simp [h2, repCount, Outcome.mid, hii]
      refine ⟨?_, ?_, fun hl => hc hl⟩
      · simp only [repCount_append, hne, hrep]
        omega
      · intro hl
        rw [hne]
        exact hb hl
  · have h1' : hasPend i0 s.pending = false := by simpa using h1
    rw [failResolve_not_pend g maxR s.ledger i0 s.pending h1']
    exact ⟨by simpa [repCount] using ha, hb, hc⟩

lemma trackedInv_step (g : DeliveryGuarantee) (maxR : Nat) (evs : List Event)
    (s : TrackerState) (hs : TrackedInv evs s) (e : Event) :
    TrackedInv (evs ++ [e]) (step g maxR s e) := by
  cases e with
  | publish i0 =>
    intro i hi
    have hpe : pubCount i (evs ++ [Event.publish i0]) =
        pubCount i evs + (if i0 = i then 1 else 0) := by
      rw [pubCount_append]; simp [pubCount]
    rw [hpe] at hi
    by_cases hii : i0 = i
    · subst hii
      rw [if_pos rfl] at hi
      have h0 : pubCount i0 evs = 0 := by omega
      obtain ⟨ha, _, hc⟩ := hs i0 (by omega)
      refine ⟨?_, ?_, ?_⟩
      · show pendCount i0 (s.pending ++ [⟨i0, 0⟩]) + repCount i0 s.reports =
          pubCount i0 (evs ++ [Event.publish i0])
        rw [pendCount_append, hpe, if_pos rfl]
        simp [pendCount]
        omega
      · intro hl
        exact absurd (hc hl) (by omega)
      · intro _
        rw [hpe, if_pos rfl]
        omega
    · rw [if_neg hii] at hi
      obtain ⟨ha, hb, hc⟩ := hs i (by omega)
      refine ⟨?_, ?_, ?_⟩
      · show pendCount i (s.pending ++ [⟨i0, 0⟩]) + repCount i s.reports =
          pubCount i (evs ++ [Event.publish i0])
        rw [pendCount_append, hpe, if_neg hii]
        simp [pendCount, hii]
        omega
      · intro hl
        have h2 : pendCount i s.pending = 0 := hb hl
        show pendCount i (s.pending ++ [⟨i0, 0⟩]) = 0
        rw [pendCount_append]
        simp [pendCount, hii, h2]
      · intro hl
        rw [hpe, if_neg hii]
        have := hc hl
        omega
  | ackOk i0 t =>
    intro i hi
    have hpe : pubCount i (evs ++ [Event.ackOk i0 t]) = pubCount i evs := by
      rw [pubCount_append]; simp [pubCount]
    rw [hpe] at hi
    obtain ⟨ha, hb, hc⟩ := hs i hi
    by_cases h1 : hasPend i0 s.pending
    · by_cases h2 : g = DeliveryGuarantee.deliverExactlyOnce ∧ inLedger i0 s.ledger = true
      · rw [hpe]
        simpa [step, h1, h2] using ⟨ha, hb, hc⟩
      · rw [hpe]
        by_cases hii : i0 = i
        · subst hii
          have hpend := pendCount_release_self i0 s.pending h1
          have hple := hasPend_true_le i0 s.pending h1
          by_cases hg : g = DeliveryGuarantee.deliverExactlyOnce
          · have hnl : inLedger i0 s.ledger = false := by
              cases hb' : inLedger i0 s.ledger with
              | false => rfl
              | true => exact absurd ⟨hg, hb'⟩ h2
            refine ⟨?_, ?_, ?_⟩
            · simp [step, h1, hg, hnl, repCount_append, repCount, Outcome.mid] <;> omega
            · intro _
              simp [step, h1, hg, hnl] <;> omega
            · intro _
              omega
          · refine ⟨?_, ?_, ?_⟩
            · simp [step, h1, h2, hg, repCount_append, repCount, Outcome.mid] <;> omega
            · intro hl
              simp [step, h1, h2, hg] at hl
              exact absurd (hb hl) (by omega)
            · intro hl
              simp [step, h1, h2, hg] at hl
              exact hc hl
        · have hrel : pendCount i (releaseDelivery i0 s.pending) = pendCount i s.pending :=
            pendCount_release_ne i0 i s.pending (Ne.symm hii)
          by_cases hg : g = DeliveryGuarantee.deliverExactlyOnce
          · have hnl : inLedger i0 s.ledger = false := by
              cases hb' : inLedger i0 s.ledger with
              | false => rfl
              | true => exact absurd ⟨hg, hb'⟩ h2
            refine ⟨?_, ?_, ?_⟩
            · simp [step, h1, hg, hnl, repCount_append, repCount, Outcome.mid, hii, hrel] <;>
                omega
            · intro hl
              simp [step, h1, hg, hnl, inLedger_append, inLedger, hii] at hl
              simp [step, h1, hg, hnl, hrel]
              exact hb hl
            · intro hl
              simp [step, h1, hg, hnl, inLedger_append, inLedger, hii] at hl
              exact hc hl
          · refine ⟨?_, ?_, ?_⟩
            · simp [step, h1, h2, hg, repCount_append, repCount, Outcome.mid, hii, hrel] <;>
                omega
            · intro hl
              simp [step, h1, h2, hg] at hl
              simp [step, h1, h2, hg, hrel]
              exact hb hl
            · intro hl
              simp [step, h1, h2, hg] at hl
              exact hc hl
    · rw [hpe]
      simpa [step, h1] using ⟨ha, hb, hc⟩
  | ackErr i0 =>
    have hfe : step g maxR s (Event.ackErr i0) =
        { pending := (failResolve g maxR s.ledger i0 s.pending).pending,
          ledger := s.ledger,
          reports := s.reports ++ (failResolve g maxR s.ledger i0 s.pending).reports,
          deliveries := s.deliveries ++ (failResolve g maxR s.ledger i0 s.pending).redelivered } :=
      rfl
    rw [hfe]
    exact trackedInv_congr_events evs (evs ++ [Event.ackErr i0]) _
      (fun i => by rw [pubCount_append]; simp [pubCount])
      (trackedInv_afterFail g maxR evs s hs i0)
  | timeoutFire i0 =>
    have hfe : step g maxR s (Event.timeoutFire i0) =
        { pending := (failResolve g maxR s.ledger i0 s.pending).pending,
          ledger := s.ledger,
          reports := s.reports ++ (failResolve g maxR s.ledger i0 s.pending).reports,
          deliveries := s.deliveries ++ (failResolve g maxR s.ledger i0 s.pending).redelivered } :=
      rfl
    rw [hfe]
    exact trackedInv_congr_events evs (evs ++ [Event.timeoutFire i0]) _
      (fun i => by rw [pubCount_append]; simp [pubCount])
      (trackedInv_afterFail g maxR evs s hs i0)
  | evict i0 =>
    intro i hi
    have hpe : pubCount i (evs ++ [Event.evict i0]) = pubCount i evs := by
      rw [pubCount_append]; simp [pubCount]
    rw [hpe] at hi
    obtain ⟨ha, hb, hc⟩ := hs i hi
    refine ⟨?_, ?_, ?_⟩
    · rw [hpe]
      simpa [step] using ha
    · intro hl
      simp [step] at hl
      simpa [step] using hb (inLedger_evictLedger_imp i i0 s.ledger hl)
    · intro hl
      rw [hpe]
      simp [step] at hl
      exact hc (inLedger_evictLedger_imp i i0 s.ledger hl)
  | closeSub =>
    intro i hi
    have hpe : pubCount i (evs ++ [Event.closeSub]) = pubCount i evs := by
      rw [pubCount_append]; simp [pubCount]
    rw [hpe] at hi
    obtain ⟨ha, _, hc⟩ := hs i hi
    refine ⟨?_, ?_, ?_⟩
    · rw [hpe]
      simp [step, pendCount, repCount_append, repCount_subClosed_map]
      omega
    · intro _
      simp [step, pendCount]
    · intro hl
      rw [hpe]
      simp [step] at hl
      exact hc hl

lemma trackedInv_run (g : DeliveryGuarantee) (maxR : Nat) :
    ∀ (rest evs : List Event) (s : TrackerState), TrackedInv evs s →
      TrackedInv (evs ++ rest) (List.foldl (step g maxR) s rest)
  | [], evs, s, hs => by simpa using hs
  | e :: rest, evs, s, hs => by
    have h2 := trackedInv_run g maxR rest (evs ++ [e]) (step g maxR s e)
      (trackedInv_step g maxR evs s hs e)
    simpa [List.append_assoc] using h2

lemma trackedInv_init : TrackedInv [] initTracker := by
  intro i _
  refine ⟨rfl, ?_, ?_⟩ <;> intro hl <;> simp [initTracker, inLedger] at hl

/-- Claim C8: every message accepted by Publish reaches exactly one
reported outcome — an ack-success, a terminal deliveryFailed, or a
lifecycle-closed report — by the time the subscription closes: the tracker
never silently drops an accepted message. -/
theorem accepted_never_dropped (g : DeliveryGuarantee) (maxR : Nat) (evs : List Event)
    (i : String) (hpub : pubCount i evs = 1) :
    repCount i (run g maxR (evs ++ [Event.closeSub])).reports = 1 := by
  have hinv := trackedInv_run g maxR (evs ++ [Event.closeSub]) [] initTracker trackedInv_init
  rw [List.nil_append] at hinv
  have hpe : pubCount i (evs ++ [Event.closeSub]) = 1 := by
    rw [pubCount_append]; simpa [pubCount] using hpub
  obtain ⟨ha, _, _⟩ := hinv i (le_of_eq hpe)
  have hclose : (run g maxR (evs ++ [Event.closeSub])).pending = [] := by
    rw [run, List.foldl_append]
    rfl
  have ha' : pendCount i (run g maxR (evs ++ [Event.closeSub])).pending +
      repCount i (run g maxR (evs ++ [Event.closeSub])).reports = 1 := by
    rw [hpe] at ha
    exact ha
  rw [hclose] at ha'
  simpa [pendCount] using ha'

/-- Witness for C8: one published message acked successfully, then close. -/
theorem accepted_never_dropped_witness :
    pubCount "a" [Event.publish "a", Event.ackOk "a" 3] = 1 ∧
    repCount "a"
        (run DeliveryGuarantee.deliverExactlyOnce 2
          ([Event.publish "a", Event.ackOk "a" 3] ++ [Event.closeSub])).reports = 1 :=
  ⟨by decide, accepted_never_dropped DeliveryGuarantee.deliverExactlyOnce 2
      [Event.publish "a", Event.ackOk "a" 3] "a" (by decide)⟩

end LiteMQ
